import Mathlib

/-!
Verification of the somnologia-backend dream-journal API.

Shallow embedding of the Python source (somnologia_app/views.py and
somnologia_app/plugins/interpreters/artemidorus.py) in Lean 4.

Python strings are modelled as `List Char`; JSON request payloads as the
inductive `Val`; Python `None` as `Val.none`; the Python-`None` sentinel
returned by `_parse_ids` as `Option.none`.  Python `set` results are
modelled as deduplicated lists (membership and freedom from duplicates are
the observable properties; iteration order of a CPython set is not part of
the contract).  Calendar dates are modelled as integers (epoch days), so
`date.today() - timedelta(days=1)` is `today - 1`.
-/

set_option autoImplicit false

namespace Somnologia

/-- A JSON-ish request value as seen by Django REST framework:
Python `None`, a string, an integer, a list, or any other kind of value
(float, boolean, object, ...) whose payload `_parse_ids` never inspects. -/
inductive Val where
  | none
  | str (s : List Char)
  | int (n : Int)
  | list (xs : List Val)
  | other

/-- Python `str.isdigit()` (ASCII): nonempty and every character a digit. -/
def pyIsDigit (s : List Char) : Bool :=
  !s.isEmpty && s.all Char.isDigit

/-- Python `str.strip()`: remove whitespace from both ends. -/
def pyStrip (s : List Char) : List Char :=
  ((s.dropWhile Char.isWhitespace).reverse.dropWhile Char.isWhitespace).reverse

/-- Decimal value of a digit string, as `int(...)` computes it. -/
def digitsToNat (s : List Char) : Nat :=
  s.foldl (fun acc c => acc * 10 + (c.toNat - 48)) 0

/-- Python `s.split(',')`: split on every comma; never empty, keeps empty pieces. -/
def pySplitComma : List Char → List (List Char)
  | [] => [[]]
  | c :: rest =>
    if c = ',' then
      [] :: pySplitComma rest
    else
      match pySplitComma rest with
      | [] => [[c]]
      | piece :: pieces => (c :: piece) :: pieces

/-- One comprehension step of the string branch of `_parse_ids`:
`int(item.strip()) for item in ... if item.strip().isdigit()`. -/
def pieceToId (piece : List Char) : Option Int :=
  let t := pyStrip piece
  if pyIsDigit t then some (Int.ofNat (digitsToNat t)) else Option.none

/-- One comprehension step of the list branch of `_parse_ids`:
`int(item) for item in ... if isinstance(item, (int, str)) and str(item).strip().isdigit()`.
An `int` item passes the filter exactly when its decimal representation has
no sign, i.e. when it is non-negative; a `str` item passes when it strips to
a digit string (and `int(item)` itself ignores surrounding whitespace). -/
def listElemToId : Val → Option Int
  | Val.int n => if 0 ≤ n then some n else Option.none
  | Val.str s =>
    if pyIsDigit (pyStrip s) then some (Int.ofNat (digitsToNat (pyStrip s))) else Option.none
  | _ => Option.none

/-- `DreamViewSet._parse_ids` (views.py):
`None` maps to the absent sentinel, a string is split on commas with each
piece stripped and kept only if it is all digits, a list keeps its integer
and digit-string elements, and any other payload maps to the empty list. -/
def parse_ids : Val → Option (List Int)
  | Val.none => Option.none
  | Val.str s => some ((pySplitComma s).filterMap pieceToId)
  | Val.list xs => some (xs.filterMap listElemToId)
  | _ => some []

/-- A stored Person row: system id and name. -/
structure PersonRec where
  id : Int
  name : List Char

/-- A stored Tag row: system id and name. -/
structure TagRec where
  id : Int
  name : List Char

/-- The entity store as the workflow and the interpreter read it. -/
structure Store where
  persons : List PersonRec
  tags : List TagRec

/-- A Dream row restricted to the fields the claims are about. -/
structure DreamRec where
  dream_date : Option Int
  persons : List Int
  tags : List Int

/-- `Model.objects.filter(id__in=ids)` followed by `.set(...)`: the new
membership is exactly the stored ids that occur in the parsed list. -/
def setMembership (storeIds parsed : List Int) : List Int :=
  storeIds.filter (fun i => parsed.contains i)

/-- `DreamViewSet.perform_create` (views.py): request fields are `Option`
(`Option.none` means the key is absent).  `request.data.get('persons', [])`
defaults an absent relation field to the empty list; an absent or null
`dream_date` is replaced by yesterday; each relation field whose parse is
not the absent sentinel has its membership set. -/
def perform_create (store : Store) (today : Int)
    (reqPersons reqTags : Option Val) (reqDate : Option Int) : DreamRec :=
  let dd : Int :=
    match reqDate with
    | Option.none => today - 1
    | some d => d
  let base : DreamRec := { dream_date := some dd, persons := [], tags := [] }
  let d1 :=
    match parse_ids (reqPersons.getD (Val.list [])) with
    | Option.none => base
    | some ids => { base with persons := setMembership (store.persons.map (fun p => p.id)) ids }
  match parse_ids (reqTags.getD (Val.list [])) with
  | Option.none => d1
  | some ids => { d1 with tags := setMembership (store.tags.map (fun t => t.id)) ids }

/-- `DreamViewSet.perform_update` (views.py): `request.data.get('persons', None)`
defaults an absent relation field to Python `None`; a relation field whose
parse is the absent sentinel is left untouched, any other parse replaces the
membership. -/
def perform_update (store : Store) (reqPersons reqTags : Option Val)
    (dream : DreamRec) : DreamRec :=
  let d1 :=
    match parse_ids (reqPersons.getD Val.none) with
    | Option.none => dream
    | some ids => { dream with persons := setMembership (store.persons.map (fun p => p.id)) ids }
  match parse_ids (reqTags.getD Val.none) with
  | Option.none => d1
  | some ids => { d1 with tags := setMembership (store.tags.map (fun t => t.id)) ids }

/-- A regex word character in the ASCII fragment of the inputs considered:
letter, digit or underscore (the class the word boundary in
`\b[A-Z][a-z]+\b` tests against). -/
def isWordChar (c : Char) : Bool :=
  c.isAlphanum || c = '_'

/-- Left-to-right scan implementing `re.findall(r'\b[A-Z][a-z]+\b', text)`.
`prev` is the character preceding the current position (`Option.none` at the
start of the text).  A match at the current position requires a word
boundary before it, an uppercase letter, a nonempty maximal run of
lowercase letters, and a word boundary after the run; a shorter run can
never be followed by a boundary, so only the maximal run is tried.  On a
match the scan resumes after the run (matches do not overlap); otherwise it
advances one character.  `fuel` bounds the recursion and is at least the
text length at every call, so it never runs out. -/
def capWordsAux : Nat → Option Char → List Char → List (List Char)
  | 0, _, _ => []
  | _ + 1, _, [] => []
  | fuel + 1, prev, c :: rest =>
    let run := rest.takeWhile Char.isLower
    let after := rest.drop run.length
    let boundaryBefore :=
      match prev with
      | Option.none => true
      | some p => !isWordChar p
    let boundaryAfter :=
      match after.head? with
      | Option.none => true
      | some d => !isWordChar d
    if boundaryBefore && c.isUpper && !run.isEmpty && boundaryAfter then
      (c :: run) :: capWordsAux fuel (some (run.getLastD c)) after
    else
      capWordsAux fuel (some c) rest

/-- `re.findall(r'\b[A-Z][a-z]+\b', dream_description)`. -/
def potential_names (text : List Char) : List (List Char) :=
  capWordsAux text.length Option.none text

/-- Python `str.lower()` on the ASCII fragment. -/
def lowerStr (s : List Char) : List Char :=
  s.map Char.toLower

/-- Lookup in `person_names_map = {p.name.lower(): p.id for p in all_persons}`:
a dict comprehension lets a later duplicate key overwrite an earlier one, so
the lookup finds the last matching row. -/
def person_names_map (persons : List PersonRec) (key : List Char) : Option Int :=
  (persons.reverse.find? (fun p => lowerStr p.name == key)).map (fun p => p.id)

/-- Lookup in `tag_name_to_id_map = {tag.name.lower(): tag.id for tag in all_tags}`. -/
def tag_name_to_id_map (tags : List TagRec) (key : List Char) : Option Int :=
  (tags.reverse.find? (fun t => lowerStr t.name == key)).map (fun t => t.id)

/-- Python `needle in haystack` prefix step: does `hay` start with `needle`? -/
def startsWith : List Char → List Char → Bool
  | [], _ => true
  | _ :: _, [] => false
  | a :: as, b :: bs => a == b && startsWith as bs

/-- Python substring test `needle in hay`. -/
def strContains (needle : List Char) : List Char → Bool
  | [] => needle.isEmpty
  | c :: rest => startsWith needle (c :: rest) || strContains needle rest

/-- The fixed `tag_keywords` mapping of `analyze_dream_description`, in its
source order. -/
def tag_keywords : List (List Char × List (List Char)) :=
  [("lucid".toList,
    ["lucid".toList, "aware".toList, "control".toList, "realize".toList, "wake up".toList]),
   ("nightmare".toList,
    ["nightmare".toList, "scary".toList, "fear".toList, "monster".toList, "chase".toList,
     "anxiety".toList]),
   ("fantasy".toList,
    ["flying".toList, "magic".toList, "mythical".toList, "dragon".toList, "unicorn".toList,
     "adventure".toList]),
   ("realistic".toList,
    ["work".toList, "school".toList, "daily life".toList, "routine".toList, "normal".toList])]

/-- The suggestion bundle returned by `analyze_dream_description`. -/
structure Suggestions where
  interpretation : List Char
  suggested_person_ids : List Int
  suggested_new_person_names : List (List Char)
  suggested_tag_ids : List Int

/-- The fixed text surrounding the truncated description in the placeholder
interpretation string. -/
def interpHead : List Char :=
  "AI Interpretation for '".toList

/-- Tail of the placeholder interpretation string. -/
def interpTail : List Char :=
  ("...': This dream suggests deep subconscious processing related to " ++
   "[themes like freedom, anxiety, transformation, etc.].").toList

/-- `ArtemidorusInterpreter.analyze_dream_description` (artemidorus.py).
An empty description short-circuits to the all-empty bundle.  Otherwise the
interpretation embeds the first 100 characters of the text; capitalized
words matching a stored person name (case-insensitively) contribute that
person's id, the others contribute the literal token as a new-person name;
each keyword concept that exists as a stored tag and has a keyword occurring
as a substring of the lowercased text contributes that tag's id.  The three
Python `set`/`list(set(...))` results appear as deduplicated lists. -/
def analyze_dream_description (store : Store) (dream_description : List Char) : Suggestions :=
  if dream_description.isEmpty then
    { interpretation := []
      suggested_person_ids := []
      suggested_new_person_names := []
      suggested_tag_ids := [] }
  else
    let interpretation_text := interpHead ++ dream_description.take 100 ++ interpTail
    let names := potential_names dream_description
    let person_ids_in_dream :=
      names.filterMap (fun n => person_names_map store.persons (lowerStr n))
    let new_person_names :=
      (names.filter (fun n => (person_names_map store.persons (lowerStr n)).isNone)).dedup
    let description_lower := lowerStr dream_description
    let suggested_tag_ids :=
      (tag_keywords.filterMap (fun ck =>
        match tag_name_to_id_map store.tags ck.1 with
        | Option.none => Option.none
        | some tid =>
          if ck.2.any (fun kw => strContains kw description_lower) then some tid
          else Option.none)).dedup
    { interpretation := interpretation_text
      suggested_person_ids := person_ids_in_dream.dedup
      suggested_new_person_names := new_person_names
      suggested_tag_ids := suggested_tag_ids }

/-- The URL the external static-file storage yields for a path; Django's
staticfiles storage is an external collaborator, modelled as the fixed
mapping prepending the static URL root. -/
def staticfiles_storage_url (path : List Char) : List Char :=
  "/static/".toList ++ path

/-- `ArtemidorusInterpreter.generate_dream_image` (artemidorus.py): both
arguments are ignored and the fixed placeholder URL is returned. -/
def generate_dream_image (dream_description : List Char)
    (interpretation : Option (List Char)) : Option (List Char) :=
  some (staticfiles_storage_url ("images/dream_placeholder.png".toList))

/-- Payload carrying a previously normalized result back into a request, as
re-applying the normalizer requires: the absent sentinel becomes an absent
payload and a normalized id list becomes a JSON list of integers. -/
def reinject : Option (List Int) → Val
  | Option.none => Val.none
  | some l => Val.list (l.map Val.int)

/-- Store fixture for the worked example of the spec: Person Alice with id 1,
Tag fantasy with id 7, and no Person named Bob. -/
def exampleStore : Store :=
  { persons := [{ id := 1, name := "Alice".toList }]
    tags := [{ id := 7, name := "fantasy".toList }] }

/-- Dream text of the worked example. -/
def exampleText : List Char :=
  "I saw Alice and Bob flying over mountains".toList

theorem pieceToId_nonneg (piece : List Char) (n : Int) (h : pieceToId piece = some n) :
    0 ≤ n := by
  simp only [pieceToId] at h
  split at h
  · cases h
    exact Int.ofNat_nonneg _
  · exact Option.noConfusion h

theorem listElemToId_nonneg (v : Val) (n : Int) (h : listElemToId v = some n) : 0 ≤ n := by
  cases v with
  | int k =>
    simp only [listElemToId] at h
    split at h
    · cases h
      assumption
    · exact Option.noConfusion h
  | str s =>
    simp only [listElemToId] at h
    split at h
    · cases h
      exact Int.ofNat_nonneg _
    · exact Option.noConfusion h
  | none => exact Option.noConfusion h
  | list xs => exact Option.noConfusion h
  | other => exact Option.noConfusion h

theorem parse_ids_nonneg (v : Val) (l : List Int) (h : parse_ids v = some l) :
    ∀ n, n ∈ l → 0 ≤ n := by
  intro n hn
  cases v with
  | none => exact Option.noConfusion h
  | str s =>
    simp only [parse_ids, Option.some.injEq] at h
    subst h
    rcases List.mem_filterMap.mp hn with ⟨piece, _, hpid⟩
    exact pieceToId_nonneg piece n hpid
  | list xs =>
    simp only [parse_ids, Option.some.injEq] at h
    subst h
    rcases List.mem_filterMap.mp hn with ⟨x, _, hx⟩
    exact listElemToId_nonneg x n hx
  | int k =>
    simp only [parse_ids, Option.some.injEq] at h
    subst h
    simp at hn
  | other =>
    simp only [parse_ids, Option.some.injEq] at h
    subst h
    simp at hn

theorem filterMap_ite_nonneg (l : List Int) (h : ∀ n ∈ l, 0 ≤ n) :
    l.filterMap (fun n => if 0 ≤ n then some n else Option.none) = l := by
  induction l with
  | nil => rfl
  | cons a t ih =>
    have ha : 0 ≤ a := h a (List.mem_cons_self a t)
    simp only [List.filterMap_cons, if_pos ha]
    rw [ih (fun n hn => h n (List.mem_cons_of_mem a hn))]

/-- C6: normalization is idempotent — feeding the result of `_parse_ids` back
through `_parse_ids` (the absent sentinel as an absent payload, a normalized
id list as a list of integers) reproduces the same result, and
`_parse_ids(None)` is the absent sentinel. -/
theorem parse_ids_idempotent :
    (∀ v, parse_ids (reinject (parse_ids v)) = parse_ids v) ∧
    parse_ids Val.none = Option.none := by
  refine ⟨?_, rfl⟩
  intro v
  cases hv : parse_ids v with
  | none => rfl
  | some l =>
    show parse_ids (Val.list (l.map Val.int)) = some l
    simp only [parse_ids, Option.some.injEq]
    rw [List.filterMap_map]
    have hcomp : (listElemToId ∘ Val.int) =
        (fun n : Int => if 0 ≤ n then some n else Option.none) := rfl
    rw [hcomp, filterMap_ite_nonneg l (parse_ids_nonneg v l hv)]

/-- C4: the string branch of `_parse_ids` splits on commas, trims each piece,
keeps exactly the all-digit pieces and converts them in input order with
duplicate multiplicity preserved; on the spec's example it yields
`[3, 5, 5, 7]`. -/
theorem parse_ids_string_example :
    parse_ids (Val.str ("3, 5,5,bad,7".toList)) = some [3, 5, 5, 7] := by decide

/-- C1 fails as stated: a bare scalar integer payload is neither `None`, a
string, nor a list, so `_parse_ids` returns the empty list, not a
one-element list, and an update carrying it clears the relation instead of
selecting the entity. -/
theorem parse_ids_bare_int_5 :
    parse_ids (Val.int 5) = some [] ∧
    parse_ids (Val.int 5) ≠ some [5] ∧
    (perform_update { persons := [{ id := 5, name := "Eve".toList }], tags := [] }
        (some (Val.int 5)) Option.none
        { dream_date := Option.none, persons := [5], tags := [] }).persons = [] := by
  refine ⟨rfl, by decide, rfl⟩

theorem setMembership_nil (storeIds : List Int) : setMembership storeIds [] = [] := by
  simp [setMembership, List.contains]

theorem perform_update_persons (st : Store) (rp rt : Option Val) (d : DreamRec) :
    (perform_update st rp rt d).persons =
      match parse_ids (rp.getD Val.none) with
      | Option.none => d.persons
      | some ids => setMembership (st.persons.map (fun p => p.id)) ids := by
  unfold perform_update
  cases parse_ids (rp.getD Val.none) <;> cases parse_ids (rt.getD Val.none) <;> rfl

theorem perform_update_tags (st : Store) (rp rt : Option Val) (d : DreamRec) :
    (perform_update st rp rt d).tags =
      match parse_ids (rt.getD Val.none) with
      | Option.none => d.tags
      | some ids => setMembership (st.tags.map (fun t => t.id)) ids := by
  unfold perform_update
  cases parse_ids (rp.getD Val.none) <;> cases parse_ids (rt.getD Val.none) <;> rfl

theorem perform_create_dream_date (st : Store) (today : Int) (rp rt : Option Val)
    (reqDate : Option Int) :
    (perform_create st today rp rt reqDate).dream_date =
      some (match reqDate with
            | Option.none => today - 1
            | some d => d) := by
  unfold perform_create
  cases parse_ids (rp.getD (Val.list [])) <;> cases parse_ids (rt.getD (Val.list [])) <;> rfl

/-- C2: an update omitting `persons` (or sending null) leaves the dream's
person memberships untouched while an explicit empty list clears them, and
likewise for `tags`; at the normalizer level the absent payload is the only
payload mapped to the absent sentinel, and the empty collection maps to the
empty list, so the two outcomes are distinguishable. -/
theorem update_absent_vs_empty :
    (∀ (st : Store) (rt : Option Val) (d : DreamRec),
      (perform_update st Option.none rt d).persons = d.persons) ∧
    (∀ (st : Store) (rt : Option Val) (d : DreamRec),
      (perform_update st (some (Val.list [])) rt d).persons = []) ∧
    (∀ (st : Store) (rp : Option Val) (d : DreamRec),
      (perform_update st rp Option.none d).tags = d.tags) ∧
    (∀ (st : Store) (rp : Option Val) (d : DreamRec),
      (perform_update st rp (some (Val.list [])) d).tags = []) ∧
    parse_ids Val.none = Option.none ∧
    parse_ids (Val.list []) = some [] ∧
    (∀ v : Val, parse_ids v = Option.none ↔ v = Val.none) := by
  refine ⟨?_, ?_, ?_, ?_, rfl, rfl, ?_⟩
  · intro st rt d
    rw [perform_update_persons]
    rfl
  · intro st rt d
    rw [perform_update_persons]
    exact setMembership_nil _
  · intro st rp d
    rw [perform_update_tags]
    rfl
  · intro st rp d
    rw [perform_update_tags]
    exact setMembership_nil _
  · intro v
    cases v <;> simp [parse_ids]

/-- C3: on creation, an absent (or null/empty) `dream_date` is stored as the
server's current date minus one day, and an explicitly supplied date is
stored exactly as given. -/
theorem create_dream_date_default :
    (∀ (st : Store) (today : Int) (rp rt : Option Val),
      (perform_create st today rp rt Option.none).dream_date = some (today - 1)) ∧
    (∀ (st : Store) (today : Int) (rp rt : Option Val) (d : Int),
      (perform_create st today rp rt (some d)).dream_date = some d) := by
  constructor
  · intro st today rp rt
    rw [perform_create_dream_date]
  · intro st today rp rt d
    rw [perform_create_dream_date]

/-- C10: a present `persons`/`tags` payload that is neither null, a string,
nor a list (a bare integer, or any other value such as a float or object)
normalizes to the empty list, so an update carrying it clears that
relation's membership entirely. -/
theorem unexpected_scalar_clears :
    (∀ n : Int, parse_ids (Val.int n) = some []) ∧
    parse_ids Val.other = some [] ∧
    (∀ (st : Store) (rt : Option Val) (d : DreamRec) (n : Int),
      (perform_update st (some (Val.int n)) rt d).persons = []) ∧
    (∀ (st : Store) (rt : Option Val) (d : DreamRec),
      (perform_update st (some Val.other) rt d).persons = []) ∧
    (∀ (st : Store) (rp : Option Val) (d : DreamRec) (n : Int),
      (perform_update st rp (some (Val.int n)) d).tags = []) ∧
    (∀ (st : Store) (rp : Option Val) (d : DreamRec),
      (perform_update st rp (some Val.other) d).tags = []) := by
  refine ⟨fun n => rfl, rfl, ?_, ?_, ?_, ?_⟩
  · intro st rt d n
    rw [perform_update_persons]
    exact setMembership_nil _
  · intro st rt d
    rw [perform_update_persons]
    exact setMembership_nil _
  · intro st rp d n
    rw [perform_update_tags]
    exact setMembership_nil _
  · intro st rp d
    rw [perform_update_tags]
    exact setMembership_nil _

/-- C8: analyzing the empty description returns the all-empty suggestion
bundle for every store state, and the analyzer is a total function (no
failure path exists for any input). -/
theorem analyze_empty_input :
    ∀ st : Store, analyze_dream_description st [] =
      { interpretation := []
        suggested_person_ids := []
        suggested_new_person_names := []
        suggested_tag_ids := [] } :=
  fun st => rfl

/-- C9: the rule-based image generator is a constant total function — every
pair of inputs yields the same fixed placeholder URL, so any two calls
agree. -/
theorem generate_dream_image_constant :
    (∀ (d : List Char) (i : Option (List Char)),
      generate_dream_image d i =
        some (staticfiles_storage_url ("images/dream_placeholder.png".toList))) ∧
    (∀ (d1 : List Char) (i1 : Option (List Char)) (d2 : List Char) (i2 : Option (List Char)),
      generate_dream_image d1 i1 = generate_dream_image d2 i2) :=
  ⟨fun d i => rfl, fun d1 i1 d2 i2 => rfl⟩

theorem digit_not_comma (c : Char) (h : c.isDigit = true) : c ≠ ',' := by
  intro hc
  subst hc
  exact absurd h (by decide)

theorem digit_not_whitespace (c : Char) (h : c.isDigit = true) : c.isWhitespace = false := by
  cases hw : c.isWhitespace
  · rfl
  · exfalso
    have hw2 := hw
    simp only [Char.isWhitespace, Bool.or_eq_true, decide_eq_true_eq] at hw2
    rcases hw2 with ((h1 | h1) | h1) | h1 <;> (subst h1; exact absurd h (by decide))

theorem dropWhile_eq_self_of_not_head {p : Char → Bool} :
    ∀ s : List Char, (∀ c ∈ s, p c = false) → s.dropWhile p = s
  | [], _ => rfl
  | c :: cs, h => by
    rw [List.dropWhile_cons]
    simp [h c (List.mem_cons_self c cs)]

theorem pyStrip_eq_self (s : List Char) (h : ∀ c ∈ s, c.isWhitespace = false) :
    pyStrip s = s := by
  unfold pyStrip
  rw [dropWhile_eq_self_of_not_head s h,
    dropWhile_eq_self_of_not_head s.reverse (fun c hc => h c (List.mem_reverse.mp hc)),
    List.reverse_reverse]

theorem pySplitComma_no_comma :
    ∀ s : List Char, (∀ c ∈ s, c ≠ ',') → pySplitComma s = [s]
  | [], _ => rfl
  | c :: rest, h => by
    have hc : c ≠ ',' := h c (List.mem_cons_self c rest)
    have ih := pySplitComma_no_comma rest (fun d hd => h d (List.mem_cons_of_mem c hd))
    unfold pySplitComma
    rw [if_neg hc, ih]

theorem pyIsDigit_of_all_digits (s : List Char) (hne : s ≠ [])
    (hdig : ∀ c ∈ s, c.isDigit = true) : pyIsDigit s = true := by
  cases s with
  | nil => exact absurd rfl hne
  | cons a t =>
    simp only [pyIsDigit, List.isEmpty_cons, Bool.not_false, Bool.true_and, List.all_eq_true]
    exact fun c hc => hdig c hc

theorem parse_ids_digit_string (s : List Char) (hne : s ≠ [])
    (hdig : ∀ c ∈ s, c.isDigit = true) :
    parse_ids (Val.str s) = some [Int.ofNat (digitsToNat s)] := by
  have hnc : ∀ c ∈ s, c ≠ ',' := fun c hc => digit_not_comma c (hdig c hc)
  have hnw : ∀ c ∈ s, c.isWhitespace = false := fun c hc => digit_not_whitespace c (hdig c hc)
  show some ((pySplitComma s).filterMap pieceToId) = _
  rw [pySplitComma_no_comma s hnc]
  simp [List.filterMap_cons, pieceToId, pyStrip_eq_self s hnw,
    pyIsDigit_of_all_digits s hne hdig]

theorem setMembership_count_one (storeIds : List Int) (n : Int)
    (h : storeIds.count n = 1) : setMembership storeIds [n] = [n] := by
  have hfun : (fun i : Int => List.contains [n] i) = (fun i : Int => decide (i = n)) := by
    funext i
    simp [List.contains]
  rw [setMembership, hfun, List.filter_eq, h, List.replicate_one]

/-- C1 as amended: a bare scalar identifier supplied as a digit string is
treated as a one-element list, and an update carrying it sets the dream's
membership to exactly that entity when the store holds exactly one person
with that id; a bare non-string scalar instead falls through to the empty
list (see the counterexample). -/
theorem parse_ids_scalar_string_singleton (s : List Char) (st : Store) (rt : Option Val)
    (d : DreamRec) (hne : s ≠ []) (hdig : ∀ c ∈ s, c.isDigit = true)
    (hcount : (st.persons.map (fun p => p.id)).count (Int.ofNat (digitsToNat s)) = 1) :
    parse_ids (Val.str s) = some [Int.ofNat (digitsToNat s)] ∧
    (perform_update st (some (Val.str s)) rt d).persons = [Int.ofNat (digitsToNat s)] := by
  have hp := parse_ids_digit_string s hne hdig
  refine ⟨hp, ?_⟩
  rw [perform_update_persons]
  have hg : (some (Val.str s)).getD Val.none = Val.str s := rfl
  rw [hg, hp]
  exact setMembership_count_one _ _ hcount

theorem parse_ids_scalar_string_singleton_witness :
    parse_ids (Val.str ("5".toList)) = some [Int.ofNat (digitsToNat ("5".toList))] ∧
    (perform_update { persons := [{ id := 5, name := "Eve".toList }], tags := [] }
        (some (Val.str ("5".toList))) Option.none
        { dream_date := Option.none, persons := [], tags := [] }).persons =
      [Int.ofNat (digitsToNat ("5".toList))] :=
  parse_ids_scalar_string_singleton ("5".toList) _ _ _ (by decide) (by decide) (by decide)

/-- C5 fails as stated: in the list branch a negative integer element does
not survive the digit filter (`str(-3)` is not all digits), so not every
integer element of the payload appears in the output. -/
theorem parse_ids_list_negative_int :
    parse_ids (Val.list [Val.int (-3)]) = some [] ∧
    ¬ (-3 : Int) ∈ (parse_ids (Val.list [Val.int (-3)])).getD [] :=
  ⟨by decide, by decide⟩

/-- C5 as amended: the list branch keeps exactly the elements that are
non-negative integers or digit-shaped strings, converted in input order (the
output is the `filterMap` of the element filter over the payload), and every
non-negative integer element of the payload appears in the output. -/
theorem parse_ids_list_keeps_nonneg (xs : List Val) (n : Int)
    (hmem : Val.int n ∈ xs) (hnn : 0 ≤ n) :
    parse_ids (Val.list xs) = some (xs.filterMap listElemToId) ∧
    n ∈ xs.filterMap listElemToId :=
  ⟨rfl, List.mem_filterMap.mpr ⟨Val.int n, hmem, by simp [listElemToId, hnn]⟩⟩

theorem parse_ids_list_keeps_nonneg_witness :
    parse_ids (Val.list [Val.int 4]) = some ([Val.int 4].filterMap listElemToId) ∧
    (4 : Int) ∈ [Val.int 4].filterMap listElemToId :=
  parse_ids_list_keeps_nonneg [Val.int 4] 4 (List.mem_singleton.mpr rfl) (by decide)

/-- C7: on the worked example the analyzer suggests Alice's id among the
person ids, the literal token Bob (case preserved) among the new person
names, and the fantasy tag's id among the tag ids (keyword flying occurs as
a case-insensitive substring), and all three lists are free of duplicates. -/
theorem analyze_alice_bob_example :
    (1 : Int) ∈ (analyze_dream_description exampleStore exampleText).suggested_person_ids ∧
    "Bob".toList ∈ (analyze_dream_description exampleStore exampleText).suggested_new_person_names ∧
    (7 : Int) ∈ (analyze_dream_description exampleStore exampleText).suggested_tag_ids ∧
    (analyze_dream_description exampleStore exampleText).suggested_person_ids.Nodup ∧
    (analyze_dream_description exampleStore exampleText).suggested_new_person_names.Nodup ∧
    (analyze_dream_description exampleStore exampleText).suggested_tag_ids.Nodup := by
  decide

end Somnologia
